import Mathlib

/-!
Verification of the `fstr` string-interpolation package (Go) against its
natural-language specification.

The Go source (`fstr.go`) is shallowly embedded below:

* dynamically typed binding values (`interface\x7b\x7d` holding `int`, `float64`
  or `string`) become the closed sum `Value`; `float64` values are modelled as
  the exact rational numbers they denote, so fixed-precision rendering is
  round-half-to-even on rationals, matching Go's `strconv` rendering of the
  binary value (claims never exercise inputs near a representation boundary);
* `formatNumber` is transcribed branch by branch, with its `panic` calls and
  the possible `parts[1]` index-out-of-range turned into `Except` errors
  (Go's `text/template` recovers panics in template functions and surfaces
  them as execution errors);
* `preprocess` — a `regexp.ReplaceAllStringFunc` over the placeholder
  pattern — becomes an explicit leftmost scanner with the same
  alternation-order semantics as Go's leftmost-first regexp matching;
* the `text/template` engine (parse of `\x7b\x7b...\x7d\x7d` actions, execution against a
  map with the default `missingkey` behaviour of printing `<no value>`,
  type checking of function arguments) is modelled restricted to the actions
  `fstr` emits; arbitrary other text is literal, an unterminated `\x7b\x7b` or an
  unrecognized action is a parse error, exactly as in the Go library;
* the caller-visible mutation of the binding map (the `int` → `float64`
  widening loop runs in place on the caller's map) is modelled by returning
  the post-call table next to the result (`interpolateRun`).

String literals that must contain brace characters write them with the
escapes `\x7b` and `\x7d`.
-/

/-- A dynamically typed binding value: the closed union over the scalar kinds
the package supports (Go `interface` values `int`, `float64`, `string`). -/
inductive Value where
  | VStr (s : String)
  | VInt (n : ℤ)
  | VFloat (q : ℚ)
deriving DecidableEq

/-- The caller's binding table: a map from identifier to value. -/
def Bindings : Type := String → Option Value

/-- Decimal digit character for a digit value (Go `strconv` digit table). -/
def digitChar (d : ℕ) : Char :=
  match d with
  | 0 => '0' | 1 => '1' | 2 => '2' | 3 => '3' | 4 => '4'
  | 5 => '5' | 6 => '6' | 7 => '7' | 8 => '8' | 9 => '9'
  | _ => '*'

/-- Decimal digits of a natural number, least-significant first (fuelled so
that it reduces by `rfl`/`decide`; `fuel = n` always suffices). -/
def natDigitsRev : ℕ → ℕ → List Char
  | 0, _ => []
  | _ + 1, 0 => []
  | fuel + 1, n + 1 => digitChar ((n + 1) % 10) :: natDigitsRev fuel ((n + 1) / 10)

/-- Decimal rendering of a natural number (Go `strconv.FormatUint`). -/
def natRepr (n : ℕ) : List Char :=
  if n = 0 then ['0'] else (natDigitsRev n n).reverse

/-- Decimal rendering of an integer (Go `strconv.FormatInt`). -/
def intRepr (n : ℤ) : List Char :=
  (if n < 0 then ['-'] else []) ++ natRepr n.natAbs

/-- Round a rational to the nearest integer, ties to even: the rounding Go's
`strconv` applies when rendering a float at fixed precision. The fractional
part `r = q - floor q` is compared with `1/2` in cleared-denominator form:
`r < 1/2` iff `2 * (q.num - floor q * q.den) < q.den`. -/
def roundHalfEven (q : ℚ) : ℤ :=
  let f := Rat.floor q
  let t : ℤ := 2 * (q.num - f * (q.den : ℤ))
  if t < (q.den : ℤ) then f
  else if (q.den : ℤ) < t then f + 1
  else if f % 2 = 0 then f else f + 1

/-- Scaling `v * 10 ^ n` computed on the numerator, so the scaling reduces inside the
kernel (`Rat` multiplication is irreducible by design). -/
def scaleQ (v : ℚ) (n : ℕ) : ℚ := mkRat (v.num * (Nat.pow 10 n : ℕ)) v.den

/-- Digit string of `a` left-padded with zeros to at least `n + 1` digits, so a
fixed-point rendering with `n` fractional digits always has an integer digit. -/
def paddedDigits (a n : ℕ) : List Char :=
  List.replicate (n + 1 - (natRepr a).length) '0' ++ natRepr a

/-- Integer-part digits of the fixed-point rendering of `a` scaled by `10 ^ n`. -/
def fIntDigits (a n : ℕ) : List Char :=
  (paddedDigits a n).take ((paddedDigits a n).length - n)

/-- Fractional-part digits of the fixed-point rendering of `a` scaled by `10 ^ n`. -/
def fFracDigits (a n : ℕ) : List Char :=
  (paddedDigits a n).drop ((paddedDigits a n).length - n)

/-- The sign prefix Go's `fmt` emits for a value (negative values keep their
sign even when the rounded magnitude is zero, e.g. `%.0f` of `-0.4` is `-0`). -/
def sgnChars (v : ℚ) : List Char :=
  if v < 0 then ['-'] else []

/-- Model of Go `fmt.Sprintf` with verb `%.<n>f`: round the value at `n`
decimal places (half to even) and render in fixed point. -/
def goSprintfF (v : ℚ) (n : ℕ) : List Char :=
  let a := (roundHalfEven (scaleQ v n)).natAbs
  if n = 0 then sgnChars v ++ natRepr a
  else sgnChars v ++ fIntDigits a n ++ '.' :: fFracDigits a n

/-- One pass of the Go comma-insertion loop
`for i := len(intPart) - 3; i > 0; i -= 3 \x7b intPart = intPart[:i] + "," + intPart[i:] \x7d`,
fuelled so that it reduces by `rfl`; `fuel` bounds the iteration count. -/
def groupAuxF : ℕ → List Char → ℕ → List Char
  | 0, s, _ => s
  | fuel + 1, s, i =>
    if 0 < i then groupAuxF fuel (s.take i ++ ',' :: s.drop i) (i - 3) else s

/-- The comma-insertion loop of `formatNumber`, starting at `len - 3` exactly
as in the source (`fuel = len` dominates the iteration count). -/
def insertSeparators (s : List Char) : List Char :=
  groupAuxF s.length s (s.length - 3)

/-- Modelled from the spec: "insert a grouping separator every three digits
from the least-significant digit, scanning leftward" — chunk the reversed
character list in groups of three, separating the groups with commas. -/
def g3 : List Char → List Char
  | a :: b :: c :: d :: rest => a :: b :: c :: ',' :: g3 (d :: rest)
  | l => l

/-- The spec's description of grouping, as a function on the rendered string:
commas every three characters counted from the right end. -/
def groupEverySpec (s : List Char) : List Char :=
  (g3 s.reverse).reverse

/-- Model of `strings.Split` on a single-character separator. -/
def splitOnChar (c : Char) : List Char → List (List Char)
  | [] => [[]]
  | x :: rest =>
    if x = c then [] :: splitOnChar c rest
    else
      match splitOnChar c rest with
      | [] => [[x]]
      | p :: ps => (x :: p) :: ps

/-- Digit loop of Go `fmt`'s `parsenum`, reading the precision that
`formatNumber` splices into the `%.<digits>f` verb: before consuming each
digit the accumulated value is checked against the `tooLarge` cap of `1e6`;
past the cap the parse is abandoned (`isnum = false`) and `fmt` emits a
`%!(NOVERB)` marker instead of a rendering. -/
def precLoop : ℕ → List Char → Option ℕ
  | num, [] => some num
  | num, c :: rest =>
    if 1000000 < num then none else precLoop (num * 10 + (c.toNat - 48)) rest

/-- Model of `fmt.Sprintf("%." ++ d ++ "f", value)` for a digit string `d`:
the precision field is read by `parsenum` (`precLoop`); if it overflows the
`1e6` cap the output is the `%!(NOVERB)` marker string, otherwise the
fixed-point rendering at the parsed precision. -/
def fmtSprintfPrec (value : ℚ) (d : List Char) : List Char :=
  match precLoop 0 d with
  | some n => goSprintfF value n
  | none => ("%!(NOVERB)").data

/-- The ways `formatNumber` can fail: `invalidFormat` models the
`panic("Invalid format")` branch; `indexPanic` models the runtime
index-out-of-range on `parts[1]` when the rendered number contains no
decimal point (which happens at precision `0` and on the `%!(NOVERB)`
marker); `badPrec` is a modelled marker for a spliced precision that is not
a digit string (Go `fmt` would render `%!` verb-error text there; the case
is unreachable from the rewriter and no theorem exercises it). -/
inductive FmtErr where
  | invalidFormat
  | indexPanic
  | badPrec
deriving DecidableEq

/-- Transcription of `formatNumber` from `fstr.go`, branch by branch:
split the format on `.`; a `,`-containing head with one part is
grouping-only; with two parts it is grouping plus precision (render at the
spliced precision via `fmt` — `fmtSprintfPrec` — split at the decimal
point, group the integer part, rejoin); a two-part format without `,` is
precision-only; anything else panics. -/
def formatNumber (value : ℚ) (format : String) : Except FmtErr String :=
  let formatParts := splitOnChar '.' format.data
  if (formatParts.headD []).contains ',' && formatParts.length == 1 then
    .ok (insertSeparators (goSprintfF value 0)).asString
  else if (formatParts.headD []).contains ',' && formatParts.length == 2 then
    if !(formatParts.getD 1 []).isEmpty && (formatParts.getD 1 []).all Char.isDigit then
      match splitOnChar '.' (fmtSprintfPrec value (formatParts.getD 1 [])) with
      | intPart :: decimalPart :: _ =>
        .ok ((insertSeparators intPart).asString ++ "." ++ decimalPart.asString)
      | _ => .error .indexPanic
    else .error .badPrec
  else if !(formatParts.headD []).contains ',' && formatParts.length == 2 then
    if !(formatParts.getD 1 []).isEmpty && (formatParts.getD 1 []).all Char.isDigit then
      .ok (fmtSprintfPrec value (formatParts.getD 1 [])).asString
    else .error .badPrec
  else
    .error .invalidFormat


/-- Characters the placeholder grammar accepts in identifiers
(`[a-zA-Z0-9_]` in the pattern). -/
def isIdentChar (c : Char) : Bool := c.isAlphanum || c == '_'

/-- A recognized format-spec inside a placeholder: capture groups 3-5 of the
pattern `(,|\.([0-9]+)f|,\.([0-9]+)f)`. -/
inductive SpecT where
  | comma
  | dotN (d : List Char)
  | commaDotN (d : List Char)
deriving DecidableEq

/-- Parse the format-spec alternation at a `:` inside a placeholder, with
Go's leftmost-first alternation order: `","` succeeds only when the closing
brace follows immediately (otherwise the matcher backtracks into the
`",." digits "f"` alternative); the digit strings are nonempty and greedy. -/
def parseSpecT (l : List Char) : Option (SpecT × List Char) :=
  match l with
  | ',' :: rest =>
    match rest with
    | '}' :: _ => some (.comma, rest)
    | '.' :: r2 =>
      let ds := r2.takeWhile Char.isDigit
      let r3 := r2.dropWhile Char.isDigit
      if ds.isEmpty then none
      else
        match r3 with
        | 'f' :: r4 => some (.commaDotN ds, r4)
        | _ => none
    | _ => none
  | '.' :: r2 =>
    let ds := r2.takeWhile Char.isDigit
    let r3 := r2.dropWhile Char.isDigit
    if ds.isEmpty then none
    else
      match r3 with
      | 'f' :: r4 => some (.dotN ds, r4)
      | _ => none
  | _ => none

/-- The replacement `preprocess` emits for a matched placeholder — the Go
switch on the capture groups, echo variants prefixing `id ++ "="`. -/
def replaceChars (id : List Char) (echo : Bool) (sp : Option SpecT) : List Char :=
  let core : List Char :=
    match sp with
    | some .comma =>
        ("\x7b\x7bformatNumber .").data ++ id ++ (" \",\"\x7d\x7d").data
    | some (.dotN d) =>
        ("\x7b\x7bformatNumber .").data ++ id ++ (" \".").data ++ d ++ ("\"\x7d\x7d").data
    | some (.commaDotN d) =>
        ("\x7b\x7bformatNumber .").data ++ id ++ (" \",.").data ++ d ++ ("\"\x7d\x7d").data
    | none => ("\x7b\x7b.").data ++ id ++ ("\x7d\x7d").data
  if echo then id ++ '=' :: core else core

/-- Attempt to match the placeholder pattern
`\x7b([a-zA-Z0-9_]+)(=)?(?::(,|\.([0-9]+)f|,\.([0-9]+)f))?\x7d` at the head of the
input; on success return the replacement text and the rest of the input. -/
def tryMatch (l : List Char) : Option (List Char × List Char) :=
  match l with
  | [] => none
  | c :: rest =>
    if c = '{' then
      let id := rest.takeWhile isIdentChar
      let r1 := rest.dropWhile isIdentChar
      if id.isEmpty then none
      else
        match r1 with
        | '}' :: r5 => some (replaceChars id false none, r5)
        | '=' :: '}' :: r5 => some (replaceChars id true none, r5)
        | '=' :: ':' :: r3 =>
          (match parseSpecT r3 with
           | some (sp, '}' :: r5) => some (replaceChars id true (some sp), r5)
           | _ => none)
        | ':' :: r3 =>
          (match parseSpecT r3 with
           | some (sp, '}' :: r5) => some (replaceChars id false (some sp), r5)
           | _ => none)
        | _ => none
    else none

/-- The scanning loop of `regexp.ReplaceAllStringFunc`: at each position try
the pattern; on a match emit the replacement and continue after it, otherwise
copy one character (fuelled by the input length; a match consumes at least
one character). -/
def scanAux : ℕ → List Char → List Char
  | 0, l => l
  | _ + 1, [] => []
  | fuel + 1, c :: rest =>
    match tryMatch (c :: rest) with
    | some (repl, rest2) => repl ++ scanAux fuel rest2
    | none => c :: scanAux fuel rest

/-- Transcription of `preprocess` from `fstr.go`: rewrite every placeholder into
`text/template` syntax, leaving all other text untouched. -/
def preprocess (format : String) : String :=
  (scanAux format.data.length format.data).asString

/-- Template parse failures: an action opened with `\x7b\x7b` and never closed
(Go: "unclosed action"), an action the engine cannot parse (the model
restricts actions to the two forms `fstr` emits), or fuel exhaustion
(unreachable at the fuel `templateParse` supplies). -/
inductive ParseErr where
  | unclosedAction
  | badAction
  | outOfFuel
deriving DecidableEq

/-- A parsed template node: literal text, a field access `\x7b\x7b.k\x7d\x7d`, or a
`\x7b\x7bformatNumber .k "spec"\x7d\x7d` call. -/
inductive Node where
  | text (s : List Char)
  | field (k : List Char)
  | callFormat (k : List Char) (spec : List Char)
deriving DecidableEq

/-- Scan an action body up to the closing `\x7d\x7d` (Go's lexer looks for the
right delimiter; the strings `fstr` emits contain no `\x7d\x7d` inside an action). -/
def takeAction : List Char → Option (List Char × List Char)
  | [] => none
  | c :: rest =>
    if c = '}' ∧ rest.headD ' ' = '}' then some ([], rest.tail)
    else (takeAction rest).map (fun p => (c :: p.1, p.2))

/-- The head of a `formatNumber` call action. -/
def fmtCallHead : List Char := ("formatNumber .").data

/-- Parse one action body: `.identifier` is a field node;
`formatNumber .identifier "spec"` is a call node; anything else is a parse
error (the model restricts the engine to the actions `fstr` emits). -/
def parseAction (l : List Char) : Option Node :=
  match l with
  | '.' :: rest =>
    if !rest.isEmpty && rest.all isIdentChar then some (.field rest) else none
  | _ =>
    if l.take 14 = fmtCallHead then
      let r := l.drop 14
      let id := r.takeWhile isIdentChar
      let r1 := r.dropWhile isIdentChar
      if id.isEmpty then none
      else
        match r1 with
        | ' ' :: '"' :: r2 =>
          let sp := r2.takeWhile (fun c => c != '"')
          let r3 := r2.dropWhile (fun c => c != '"')
          (match r3 with
           | ['"'] => some (.callFormat id sp)
           | _ => none)
        | _ => none
    else none

/-- The `text/template` lexer loop: text up to `\x7b\x7b` is literal, then an
action runs to the next `\x7d\x7d`; fuelled by the input length plus one. -/
def lexAux : ℕ → List Char → List Char → Except ParseErr (List Node)
  | 0, _, _ => .error .outOfFuel
  | _ + 1, [], acc => .ok (if acc.isEmpty then [] else [.text acc.reverse])
  | fuel + 1, c :: rest, acc =>
    if c = '{' ∧ rest.headD ' ' = '{' then
      match takeAction rest.tail with
      | none => .error .unclosedAction
      | some (a, rest2) =>
        match parseAction a with
        | none => .error .badAction
        | some nd =>
          (lexAux fuel rest2 []).map
            (fun ns => (if acc.isEmpty then [] else [.text acc.reverse]) ++ nd :: ns)
    else lexAux fuel rest (c :: acc)

/-- Model of `template.Parse` restricted to the actions `fstr` emits. -/
def templateParse (s : String) : Except ParseErr (List Node) :=
  lexAux (s.data.length + 1) s.data []

/-- Execution failures of the substitution engine: a format spec applied to a
non-float value (Go: "wrong type for value; expected float64"), a
`formatNumber` call on a missing key (Go: "invalid value; expected float64"),
or a panic inside `formatNumber` recovered by the engine's `safeCall`. -/
inductive ExecErr where
  | typeMismatch
  | invalidValue
  | callPanic (e : FmtErr)
deriving DecidableEq

/-- Search for the least exponent `k ≥ k0` with `den ∣ 10 ^ k` (fuelled). -/
def findExp (den : ℕ) : ℕ → ℕ → Option ℕ
  | 0, _ => none
  | fuel + 1, k => if Nat.pow 10 k % den = 0 then some k else findExp den fuel (k + 1)

/-- Modelled rendering of a `float64` under `fmt`'s `%v` (shortest decimal):
integral values print as integers; other binary-float-denoted rationals have
a finite decimal expansion, printed at the least sufficient number of
fractional digits (which has no trailing zeros, hence is the shortest
round-tripping form Go prints in the non-exponent range — the only regime
the claims exercise; the `'?'` fallback is unreachable for such values). -/
def renderFloat (q : ℚ) : List Char :=
  if q.den = 1 then intRepr q.num
  else
    match findExp q.den 400 1 with
    | some k =>
      let a := q.num.natAbs * (Nat.pow 10 k / q.den)
      (if q.num < 0 then ['-'] else []) ++ fIntDigits a k ++ '.' :: fFracDigits a k
    | none => ['?']

/-- Default textual rendering of a binding value (`fmt` `%v`). -/
def renderValue : Value → List Char
  | .VStr s => s.data
  | .VInt n => intRepr n
  | .VFloat q => renderFloat q

/-- Evaluate one template node against the binding table: a missing key in a
field prints the marker `<no value>` (Go `text/template` default for maps); a
`formatNumber` call type-checks its argument against `float64`. -/
def renderNode (nd : Node) (data : Bindings) : Except ExecErr (List Char) :=
  match nd with
  | .text s => .ok s
  | .field k =>
    match data k.asString with
    | none => .ok ("<no value>").data
    | some v => .ok (renderValue v)
  | .callFormat k sp =>
    match data k.asString with
    | none => .error .invalidValue
    | some (.VFloat q) =>
      (match formatNumber q sp.asString with
       | .ok s => .ok s.data
       | .error e => .error (.callPanic e))
    | some (.VStr _) => .error .typeMismatch
    | some (.VInt _) => .error .typeMismatch

/-- Execute the node list left to right, stopping at the first error. -/
def execNodes (ns : List Node) (data : Bindings) : Except ExecErr (List Char) :=
  match ns with
  | [] => .ok []
  | nd :: rest =>
    match renderNode nd data with
    | .error e => .error e
    | .ok s =>
      (match execNodes rest data with
       | .error e => .error e
       | .ok s2 => .ok (s ++ s2))

/-- Errors `Interpolate` returns: a template parse failure (wrapped "failed
to parse template") or an execution failure (wrapped "failed to execute
template"). -/
inductive InterpErr where
  | parseFailed (e : ParseErr)
  | execFailed (e : ExecErr)
deriving DecidableEq

/-- The `int` → `float64` widening applied to one value (the body of the
normalization loop; the `default` arm stores the value back unchanged). -/
def normVal : Value → Value
  | .VInt n => .VFloat (n : ℚ)
  | v => v

/-- The effect of the normalization loop `for k, v := range data \x7b ... \x7d` on
the caller's map: every `int` binding is replaced in place by the `float64`
of the same value. -/
def normalizeBindings (data : Bindings) : Bindings :=
  fun k => (data k).map normVal

/-- Transcription of `Interpolate` from `fstr.go`, with the caller-visible state of the
binding table returned alongside the result: `preprocess`, then parse (a
failure returns before the normalization loop runs, leaving the table
untouched), then the in-place `int` → `float64` loop, then execution. -/
def interpolateRun (format : String) (data : Bindings) :
    (Except InterpErr String) × Bindings :=
  match templateParse (preprocess format) with
  | .error e => (.error (.parseFailed e), data)
  | .ok nodes =>
    let d2 := normalizeBindings data
    (match execNodes nodes d2 with
     | .error e => (.error (.execFailed e), d2)
     | .ok out => (.ok out.asString, d2))

/-- The result `Interpolate` returns to the caller. -/
def Interpolate (format : String) (data : Bindings) : Except InterpErr String :=
  (interpolateRun format data).1



deriving instance DecidableEq for Except

/-! ## The comma-insertion loop computes the spec's grouping -/

theorem groupAuxF_append (y : List Char) :
    ∀ (fuel : ℕ) (x : List Char) (i : ℕ), i ≤ x.length →
      groupAuxF fuel (x ++ y) i = groupAuxF fuel x i ++ y := by
  intro fuel
  induction fuel with
  | zero => intro x i _; rfl
  | succ fuel ih =>
    intro x i h
    by_cases hi : 0 < i
    · have ht : (x ++ y).take i = x.take i := by
        rw [List.take_append_eq_append_take, Nat.sub_eq_zero_of_le h]
        simp
      have hd : (x ++ y).drop i = x.drop i ++ y := by
        rw [List.drop_append_eq_append_drop, Nat.sub_eq_zero_of_le h]
        simp
      have hlen : i - 3 ≤ (x.take i ++ ',' :: x.drop i).length := by
        simp only [List.length_append, List.length_take, List.length_cons,
          List.length_drop]
        omega
      simp only [groupAuxF, if_pos hi, ht, hd]
      rw [show x.take i ++ ',' :: (x.drop i ++ y)
            = (x.take i ++ ',' :: x.drop i) ++ y by simp]
      exact ih _ _ hlen
    · simp only [groupAuxF, if_neg hi]

theorem groupAuxF_eq_g3 :
    ∀ (fuel : ℕ) (r : List Char), r.length ≤ fuel →
      groupAuxF fuel r.reverse (r.length - 3) = (g3 r).reverse := by
  intro fuel
  induction fuel with
  | zero =>
    intro r h
    have : r = [] := List.eq_nil_of_length_eq_zero (Nat.le_zero.mp h)
    subst this; rfl
  | succ fuel ih =>
    intro r h
    match r with
    | [] => rfl
    | [a] => simp [groupAuxF, g3]
    | [a, b] => simp [groupAuxF, g3]
    | [a, b, c] => simp [groupAuxF, g3]
    | a :: b :: c :: d :: t =>
      have hi : (a :: b :: c :: d :: t).length - 3 = (d :: t).length := by
        simp only [List.length_cons]; omega
      have hrev : (a :: b :: c :: d :: t).reverse
          = (d :: t).reverse ++ [c, b, a] := by simp
      have hpos : 0 < (d :: t).length := by simp
      have htake : ((d :: t).reverse ++ [c, b, a]).take (d :: t).length
          = (d :: t).reverse := List.take_left' (by simp)
      have hdrop : ((d :: t).reverse ++ [c, b, a]).drop (d :: t).length
          = [c, b, a] := List.drop_left' (by simp)
      rw [hi, hrev]
      simp only [groupAuxF, if_pos hpos, htake, hdrop]
      rw [show (d :: t).reverse ++ ',' :: [c, b, a]
            = ((d :: t).reverse ++ [',']) ++ [c, b, a] by simp]
      rw [show (d :: t).reverse ++ [','] = (',' :: d :: t).reverse by simp]
      have hlen2 : (d :: t).length - 3 ≤ (',' :: d :: t).reverse.length := by
        simp only [List.length_reverse, List.length_cons]; omega
      rw [groupAuxF_append [c, b, a] fuel (',' :: d :: t).reverse _ hlen2]
      have hfuel : (d :: t).length ≤ fuel := by
        simp only [List.length_cons] at h ⊢; omega
      have ihd := ih (d :: t) hfuel
      rw [show (',' :: d :: t).reverse = (d :: t).reverse ++ [','] by simp]
      rw [groupAuxF_append [','] fuel (d :: t).reverse _
        (by simp only [List.length_reverse, List.length_cons]; omega)]
      rw [ihd]
      simp [g3]

theorem insertSeparators_eq_spec (l : List Char) :
    insertSeparators l = groupEverySpec l := by
  have h := groupAuxF_eq_g3 l.length l.reverse (by simp)
  simpa [insertSeparators, groupEverySpec] using h

/-! ## Digit-character facts -/

theorem digitChar_isDigit {d : ℕ} (h : d < 10) : (digitChar d).isDigit = true := by
  interval_cases d <;> decide

theorem natDigitsRev_digits (fuel : ℕ) :
    ∀ (n : ℕ), ∀ c ∈ natDigitsRev fuel n, c.isDigit = true := by
  induction fuel with
  | zero => intro n c hc; simp [natDigitsRev] at hc
  | succ fuel ih =>
    intro n c hc
    match n with
    | 0 => simp [natDigitsRev] at hc
    | n + 1 =>
      simp only [natDigitsRev, List.mem_cons] at hc
      rcases hc with rfl | hc
      · exact digitChar_isDigit (Nat.mod_lt _ (by norm_num))
      · exact ih _ _ hc

theorem natRepr_digits (a : ℕ) : ∀ c ∈ natRepr a, c.isDigit = true := by
  intro c hc
  by_cases h : a = 0
  · subst h
    simp only [natRepr, if_pos rfl, List.mem_singleton] at hc
    simp only [reduceIte, List.mem_singleton] at hc
    subst hc; decide
  · simp only [natRepr, if_neg h, List.mem_reverse] at hc
    exact natDigitsRev_digits a a c hc

theorem paddedDigits_digits (a n : ℕ) : ∀ c ∈ paddedDigits a n, c.isDigit = true := by
  intro c hc
  simp only [paddedDigits, List.mem_append] at hc
  rcases hc with hc | hc
  · rw [List.eq_of_mem_replicate hc]; decide
  · exact natRepr_digits a c hc

theorem fIntDigits_digits (a n : ℕ) : ∀ c ∈ fIntDigits a n, c.isDigit = true :=
  fun c hc => paddedDigits_digits a n c (List.take_subset _ _ hc)

theorem fFracDigits_digits (a n : ℕ) : ∀ c ∈ fFracDigits a n, c.isDigit = true :=
  fun c hc => paddedDigits_digits a n c (List.drop_subset _ _ hc)

theorem isDigit_ne_dot {c : Char} (h : c.isDigit = true) : c ≠ '.' := by
  intro hc; subst hc; exact absurd h (by decide)

/-! ## splitOnChar facts -/

theorem splitOnChar_not_mem {c : Char} :
    ∀ {l : List Char}, c ∉ l → splitOnChar c l = [l] := by
  intro l
  induction l with
  | nil => intro _; rfl
  | cons x rest ih =>
    intro h
    have hx : ¬ x = c := fun hh => h (hh ▸ List.mem_cons_self x rest)
    have hr : c ∉ rest := fun hh => h (List.mem_cons_of_mem x hh)
    simp only [splitOnChar, if_neg hx, ih hr]

theorem splitOnChar_append {c : Char} :
    ∀ {x : List Char}, c ∉ x → ∀ y, splitOnChar c (x ++ c :: y) = x :: splitOnChar c y := by
  intro x
  induction x with
  | nil => intro _ y; simp [splitOnChar]
  | cons a x' ih =>
    intro h y
    have ha : ¬ a = c := fun hh => h (hh ▸ List.mem_cons_self a x')
    have hx : c ∉ x' := fun hh => h (List.mem_cons_of_mem a hh)
    have hrec := ih hx y
    simp only [List.cons_append, splitOnChar, if_neg ha, List.append_eq, hrec]

/-! ## Structure of the fixed-point rendering -/

theorem scaleQ_zero (v : ℚ) : scaleQ v 0 = v := by
  simp [scaleQ, Nat.pow]

theorem goSprintfF_zero (v : ℚ) : goSprintfF v 0 = sgnChars v ++ natRepr ((roundHalfEven v).natAbs) := by
  simp [goSprintfF, scaleQ_zero]

theorem goSprintfF_pos (v : ℚ) (n : ℕ) (hn : n ≠ 0) :
    goSprintfF v n = sgnChars v ++ fIntDigits ((roundHalfEven (scaleQ v n)).natAbs) n
      ++ '.' :: fFracDigits ((roundHalfEven (scaleQ v n)).natAbs) n := by
  simp [goSprintfF, hn]

theorem dot_not_mem_sgn_int (v : ℚ) (a n : ℕ) :
    '.' ∉ sgnChars v ++ fIntDigits a n := by
  intro h
  rcases List.mem_append.mp h with h | h
  · by_cases hv : v < 0
    · simp only [sgnChars, if_pos hv, List.mem_singleton] at h
      exact absurd h (by decide)
    · simp [sgnChars, if_neg hv] at h
  · exact isDigit_ne_dot (fIntDigits_digits a n '.' h) rfl

theorem splitOnChar_goSprintfF (v : ℚ) (n : ℕ) (hn : n ≠ 0) :
    splitOnChar '.' (goSprintfF v n) =
      [sgnChars v ++ fIntDigits ((roundHalfEven (scaleQ v n)).natAbs) n,
       fFracDigits ((roundHalfEven (scaleQ v n)).natAbs) n] := by
  rw [goSprintfF_pos v n hn]
  rw [show sgnChars v ++ fIntDigits ((roundHalfEven (scaleQ v n)).natAbs) n
        ++ '.' :: fFracDigits ((roundHalfEven (scaleQ v n)).natAbs) n
      = (sgnChars v ++ fIntDigits ((roundHalfEven (scaleQ v n)).natAbs) n)
        ++ '.' :: fFracDigits ((roundHalfEven (scaleQ v n)).natAbs) n by simp]
  rw [splitOnChar_append (dot_not_mem_sgn_int v _ n) _]
  rw [splitOnChar_not_mem]
  intro h
  exact isDigit_ne_dot (fFracDigits_digits _ n '.' h) rfl

/-! ## formatNumber branch lemmas -/

theorem formatNumber_comma (v : ℚ) :
    formatNumber v "," = .ok (insertSeparators (goSprintfF v 0)).asString := rfl

theorem splitOnChar_commaDot {d : List Char} (hdot : ('.' : Char) ∉ d) :
    splitOnChar '.' (',' :: '.' :: d) = [[','], d] := by
  rw [show (',' :: '.' :: d) = [','] ++ '.' :: d by simp]
  rw [splitOnChar_append (by decide) d, splitOnChar_not_mem hdot]

theorem formatNumber_commaDot (v : ℚ) (d : List Char) (n : ℕ) (hne : d ≠ [])
    (hdig : d.all Char.isDigit = true) (hparse : precLoop 0 d = some n) (hn : n ≠ 0) :
    formatNumber v (String.mk (',' :: '.' :: d)) =
      .ok ((insertSeparators (sgnChars v
          ++ fIntDigits ((roundHalfEven (scaleQ v n)).natAbs) n)).asString
        ++ "."
        ++ (fFracDigits ((roundHalfEven (scaleQ v n)).natAbs) n).asString) := by
  have hdot : ('.' : Char) ∉ d := fun hm =>
    isDigit_ne_dot (List.all_eq_true.mp hdig _ hm) rfl
  have hempty : d.isEmpty = false := by
    cases d with
    | nil => exact absurd rfl hne
    | cons a l => rfl
  have hdata : (String.mk (',' :: '.' :: d)).data = ',' :: '.' :: d := rfl
  simp only [formatNumber, hdata, splitOnChar_commaDot hdot]
  simp only [List.headD_cons, List.length_cons, List.length_nil]
  norm_num
  rw [if_pos ⟨hne, List.all_eq_true.mp hdig⟩]
  simp only [fmtSprintfPrec, hparse]
  rw [splitOnChar_goSprintfF v n hn]

/-- C3: the claim says every finite negative value keeps its minus sign outside
the grouping logic, with no separator ever adjacent to the sign.  The code
counts the sign character when measuring the digit string: for `-123456`
(six digits, so `len(intPart) = 7`) the loop inserts a comma at index 1,
immediately after the minus sign, producing `-,123,456`.  This theorem
evaluates the embedded `formatNumber` at that failing input. -/
theorem claim_C3_eval : formatNumber (mkRat (-123456) 1) "," = .ok "-,123,456" := by
  decide

/-- C5: for every finite non-negative value, `formatNumber` with the
grouping-only spec `","` renders the value rounded to zero decimal places
(round half to even, the host rendering) as an integer digit string and
inserts a comma every three digits scanning leftward from the
least-significant digit (`groupEverySpec`, the spec's description of
grouping); and in particular `format(123456789.111, ",") = "123,456,789"`. -/
theorem claim_C5 :
    (∀ v : ℚ, 0 ≤ v → formatNumber v ","
      = .ok (groupEverySpec (natRepr (roundHalfEven v).natAbs)).asString)
    ∧ formatNumber (mkRat 123456789111 1000) "," = .ok "123,456,789" := by
  constructor
  · intro v hv
    rw [formatNumber_comma]
    have hsgn : sgnChars v = [] := by
      simp [sgnChars, not_lt.mpr hv]
    rw [goSprintfF_zero, hsgn, List.nil_append, insertSeparators_eq_spec]
  · decide

/-- C5 witness: the general statement applied at `v = 1234567`. -/
theorem claim_C5_witness : formatNumber (mkRat 1234567 1) "," = .ok "1,234,567" := by
  have h := claim_C5.1 (mkRat 1234567 1) (by decide)
  rw [h]; decide

/-- C6 counterexample: with precision `N = 0` — a spec the rewriter produces
from `\x7bx:,.0f\x7d` — the claim's promised split/group/rejoin output does not
happen: `%.0f` renders no decimal point, so `strings.Split` yields a single
part and the access `parts[1]` panics (index out of range).  At `N = 0`
the claim is therefore false. -/
theorem claim_C6_counterexample :
    formatNumber (mkRat 5 1) ",.0" = .error .indexPanic := by
  decide

/-- C6 amended: for every finite value and every precision digit-string `d`
that `fmt`'s `parsenum` accepts under its `1e6` cap (`precLoop 0 d = some n`;
every digit string of at most seven digits qualifies) with value `n ≥ 1`,
`formatNumber` with the grouping+precision spec `",." ++ d` (the directive
the rewriter derives from the placeholder spec `",." ++ d ++ "f"`) first
renders the value with exactly `n` digits after the decimal point, splits at
the decimal point, applies grouping to the integer part only —
`groupEverySpec`, never touching the fractional digits — and rejoins with a
single decimal point; in particular
`format(123456789.9787968, ",.3f") = "123,456,789.979"`.  Beyond the cap the
claim fails a second way: at the rewriter-producible spec `",.99999999"` the
spliced precision overflows `parsenum`, `fmt` renders the `%!(NOVERB)`
marker, and `parts[1]` panics just as at precision `0` — shown by the third
conjunct. -/
theorem claim_C6_amended :
    (∀ (v : ℚ) (d : List Char) (n : ℕ), d ≠ [] → d.all Char.isDigit = true →
      precLoop 0 d = some n → 1 ≤ n →
      formatNumber v (String.mk (',' :: '.' :: d)) =
        .ok ((groupEverySpec (sgnChars v
            ++ fIntDigits ((roundHalfEven (scaleQ v n)).natAbs) n)).asString
          ++ "."
          ++ (fFracDigits ((roundHalfEven (scaleQ v n)).natAbs) n).asString))
    ∧ formatNumber (mkRat 1234567899787968 10000000) ",.3" = .ok "123,456,789.979"
    ∧ formatNumber (mkRat 7 1) ",.99999999" = .error .indexPanic := by
  refine ⟨?_, by decide, by decide⟩
  intro v d n hne hdig hparse hpos
  rw [formatNumber_commaDot v d n hne hdig hparse (by omega), insertSeparators_eq_spec]

/-- C6 witness: the amended statement applied at `v = 7/2`, `d = "2"`. -/
theorem claim_C6_witness :
    formatNumber (mkRat 7 2) (String.mk (',' :: '.' :: ['2'])) = .ok "3.50" := by
  have h := claim_C6_amended.1 (mkRat 7 2) ['2'] 2 (by decide) (by decide) (by decide)
    (by decide)
  rw [h]; decide

/-- C2 counterexample: a table binding `age` to the int `23` is mutated by the
call — afterwards the caller's map holds the float `23` at `age`, not the int
it stored. -/
theorem claim_C2_counterexample :
    (interpolateRun "\x7bage\x7d" (fun k => if k = "age" then some (.VInt 23) else none)).2 "age"
        = some (.VFloat (mkRat 23 1))
    ∧ (fun k => if k = "age" then some (Value.VInt 23) else none) "age"
        = some (Value.VInt 23)
    ∧ (interpolateRun "\x7bage\x7d" (fun k => if k = "age" then some (.VInt 23) else none)).2 "age"
        ≠ (fun k => if k = "age" then some (Value.VInt 23) else none) "age" := by
  refine ⟨by decide, rfl, by decide⟩

/-- C2 amended: the normalization loop runs in place on the caller's map.
Whenever the template parses, the table the caller holds after the call is
the pointwise-normalized one — every `int` binding widened to the equal
`float64`, every other binding untouched (third conjunct) — whether or not
execution then succeeds.  Only when template parsing fails does the loop
never run, and the caller's table is returned untouched (second conjunct). -/
theorem claim_C2_amended :
    (∀ (format : String) (data : Bindings) (nodes : List Node),
      templateParse (preprocess format) = .ok nodes →
      (interpolateRun format data).2 = normalizeBindings data)
    ∧ (∀ (format : String) (data : Bindings) (e : ParseErr),
      templateParse (preprocess format) = .error e →
      (interpolateRun format data).2 = data)
    ∧ (∀ (data : Bindings) (k : String),
        normalizeBindings data k
          = match data k with
            | some (Value.VInt n) => some (Value.VFloat (n : ℚ))
            | o => o) := by
  refine ⟨?_, ?_, ?_⟩
  · intro format data nodes h
    cases h2 : execNodes nodes (normalizeBindings data) <;>
      simp [interpolateRun, h, h2]
  · intro format data e h
    simp [interpolateRun, h]
  · intro data k
    unfold normalizeBindings normVal
    cases data k with
    | none => rfl
    | some v => cases v <;> rfl

/-- C2 witness: the first conjunct applied to the parsing template `{age}`
(whose rewritten form parses to a single field node) shows the caller's table
normalized in place, and the second conjunct applied to `{{` (an unclosed
action) shows the table untouched. -/
theorem claim_C2_witness :
    (interpolateRun "\x7bage\x7d" (fun k => if k = "age" then some (.VInt 23) else none)).2
      = normalizeBindings (fun k => if k = "age" then some (.VInt 23) else none)
    ∧ (interpolateRun "\x7b\x7b" (fun k => if k = "age" then some (.VInt 23) else none)).2
      = (fun k => if k = "age" then some (.VInt 23) else none) := by
  constructor
  · exact claim_C2_amended.1 _ _ [Node.field ("age".data)] (by decide)
  · exact claim_C2_amended.2.1 _ _ ParseErr.unclosedAction (by decide)

/-- C10: the rewriter really produces the spec `",.0"` (from the placeholder
`\x7bx:,.0f\x7d`, whose precision `0` matches `[0-9]+`), and on that spec the
formatter fails — not through the `panic("Invalid format")` branch, but with
the index-out-of-range on `parts[1]`, since `%.0f` renders no decimal point.
This contradicts the claim that the formatter only fails on specs outside
the three produced shapes. -/
theorem claim_C10_eval :
    preprocess "\x7bx:,.0f\x7d" = "\x7b\x7bformatNumber .x \",.0\"\x7d\x7d"
    ∧ formatNumber (mkRat 7 1) ",.0" = .error .indexPanic := by
  exact ⟨by decide, by decide⟩

/-! ## Scanning lemmas for the rewriter -/

theorem lexAux_text :
    ∀ (a : List Char), ('{' : Char) ∉ a →
      ∀ (fuel : ℕ) (l acc : List Char),
        lexAux (a.length + fuel) (a ++ l) acc = lexAux fuel l (a.reverse ++ acc) := by
  intro a
  induction a with
  | nil => intro _ fuel l acc; simp
  | cons c a' ih =>
    intro ha fuel l acc
    have hc : c ≠ '{' := fun h => ha (h ▸ List.mem_cons_self c a')
    have hcond : ¬ (c = '{' ∧ ((a' ++ l).headD ' ') = '{') := fun h => hc h.1
    have hlen : (c :: a').length + fuel = (a'.length + fuel) + 1 := by
      simp only [List.length_cons]; omega
    rw [hlen, List.cons_append]
    simp only [lexAux, if_neg hcond]
    rw [ih (fun h => ha (List.mem_cons_of_mem c h)) fuel l (c :: acc)]
    simp

theorem tryMatch_none {c : Char} (hc : c ≠ '{') (rest : List Char) :
    tryMatch (c :: rest) = none := by
  simp [tryMatch, hc]

theorem scanAux_no_brace :
    ∀ (fuel : ℕ) (l : List Char), (∀ c ∈ l, c ≠ '{') → scanAux fuel l = l := by
  intro fuel
  induction fuel with
  | zero => intro l _; rfl
  | succ fuel ih =>
    intro l hl
    cases l with
    | nil => rfl
    | cons c rest =>
      have hc : c ≠ '{' := hl c (List.mem_cons_self c rest)
      simp only [scanAux, tryMatch_none hc rest,
        ih rest (fun d hd => hl d (List.mem_cons_of_mem c hd))]

theorem interpolate_text_only (t : String) (data : Bindings)
    (hpre : preprocess t = t)
    (hparse : templateParse t
      = .ok (if t.data.reverse.isEmpty then [] else [.text t.data.reverse.reverse])) :
    Interpolate t data = .ok t := by
  show (interpolateRun t data).1 = _
  unfold interpolateRun
  rw [hpre, hparse]
  cases hdata : t.data with
  | nil =>
    have ht0 : t = "" := String.ext hdata
    simp [hdata, execNodes]
    exact ht0.symm
  | cons c rest =>
    have hne : ((c :: rest).reverse).isEmpty = false := by simp
    simp only [hne, List.reverse_reverse, Bool.false_eq_true, if_false]
    have hexec : execNodes [Node.text (c :: rest)] (normalizeBindings data)
        = .ok ((c :: rest) ++ []) := by
      simp [execNodes, renderNode]
    rw [hexec]
    have hfin : ((c :: rest) ++ []).asString = t := by
      apply String.ext
      show (c :: rest) ++ [] = t.data
      rw [hdata]
      simp
    show Except.ok (((c :: rest) ++ []).asString) = Except.ok t
    rw [hfin]

/-- C9: for every well-formed template containing no placeholders — under the
spec's grammar, brace text must belong to a placeholder, so such a template
contains no brace characters at all — and every binding table, `Interpolate`
returns the template unchanged. -/
theorem claim_C9 :
    ∀ (t : String) (data : Bindings), (∀ c ∈ t.data, c ≠ '{' ∧ c ≠ '}') →
      Interpolate t data = .ok t := by
  intro t data ht
  have hpre : preprocess t = t := by
    unfold preprocess
    rw [scanAux_no_brace t.data.length t.data (fun c hc => (ht c hc).1)]
    rfl
  have hnb : ('{' : Char) ∉ t.data := fun hm => (ht '{' hm).1 rfl
  have hparse : templateParse t
      = .ok (if t.data.reverse.isEmpty then [] else [.text t.data.reverse.reverse]) := by
    unfold templateParse
    have h2 := lexAux_text t.data hnb 1 [] []
    rw [show t.data ++ [] = t.data by simp] at h2
    rw [h2]
    simp [lexAux]
  exact interpolate_text_only t data hpre hparse

/-- C9 witness: a brace-free template is returned unchanged. -/
theorem claim_C9_witness :
    Interpolate "hello world" (fun _ => some (.VInt 1)) = .ok "hello world" :=
  claim_C9 "hello world" (fun _ => some (.VInt 1)) (by decide)

/-! ## Inversion of the rewriter's matcher -/

